import Mathlib

/-!
Verification of the insights-operator record-collection pipeline.

This development shallowly embeds the two source files of the repository:

* `pkg/record/interface.go` — the `Collect` orchestrator, its error
  aggregation (`uniqueStrings`) and the gather performance report; and
* `pkg/gather/clusterconfig/clusterconfig.go` — the gather routines,
  health predicates, anonymization transforms and the shared
  version-guarded cache.

Go slices become `List`, Go maps over which the code only iterates
key-by-key become association lists, machine wall-clock measurements and
the results of remote API calls become explicit inputs, and the recorder
sink becomes a state machine `σ → Record → σ × Option String` (final
state plus optional failure message), so that the sequence of records a
run forwards is observable.  Fallible Go calls returning `(T, error)`
become `Except ApiError T` values supplied as inputs.
-/

namespace Insights

/-! ### Lexicographic string order

Go's `sort.Strings` orders strings by byte-wise lexicographic
comparison of their UTF-8 encodings.  UTF-8 is order-preserving: the
byte-wise order of encodings coincides with the lexicographic order of
code-point sequences, which is exactly the order of `List Char` data
underlying Lean's `String` order.  The boolean comparator below computes
that order (Lean's own `String.decidableLT` does not reduce in the
kernel, so we need a computable comparator for concrete runs); the
bridge lemma `charListLt_iff` ties it to the standard order. -/

def charListLt : List Char → List Char → Bool
  | _, [] => false
  | [], _ :: _ => true
  | a :: as, b :: bs => if a < b then true else if b < a then false else charListLt as bs

def goStrLe (a b : String) : Bool := !charListLt b.data a.data

lemma charListLt_iff : ∀ as bs : List Char, charListLt as bs = true ↔ as < bs := by
  intro as
  induction as with
  | nil =>
    intro bs
    cases bs with
    | nil =>
      apply iff_of_false (by simp [charListLt])
      intro h; cases h
    | cons b bs =>
      apply iff_of_true (by simp [charListLt])
      exact List.Lex.nil
  | cons a as ih =>
    intro bs
    cases bs with
    | nil =>
      apply iff_of_false (by simp [charListLt])
      intro h; cases h
    | cons b bs =>
      simp only [charListLt]
      by_cases hab : a < b
      · exact iff_of_true (by simp [hab]) (List.Lex.rel hab)
      · simp only [if_neg hab]
        by_cases hba : b < a
        · simp only [if_pos hba]
          apply iff_of_false (by simp)
          intro h
          cases h with
          | cons h => exact absurd hba (lt_irrefl a)
          | rel h => exact absurd h hab
        · simp only [if_neg hba]
          have heq : a = b := le_antisymm (le_of_not_lt hba) (le_of_not_lt hab)
          subst heq
          rw [ih bs]
          constructor
          · intro h; exact List.Lex.cons h
          · intro h
            cases h with
            | cons h => exact h
            | rel h => exact absurd h hab

lemma goStrLe_iff (a b : String) : goStrLe a b = true ↔ a ≤ b := by
  have hlt : b < a ↔ charListLt b.data a.data = true := by
    rw [String.lt_iff_toList_lt, charListLt_iff]
    exact Iff.rfl
  constructor
  · intro h hba
    rw [hlt] at hba
    simp [goStrLe, hba] at h
  · intro h
    simp only [goStrLe, Bool.not_eq_true']
    by_contra hc
    rw [Bool.not_eq_false] at hc
    exact h (hlt.mpr hc)

/-- The Go code calls `sort.Strings(errors)`.  On a linear order the
sorted permutation of a list is unique, so any correct sorting
algorithm produces the same list; we use insertion sort over the
computable comparator (see `sortStrings_unique` for the uniqueness
argument that justifies this modelling choice). -/
def sortStrings (l : List String) : List String :=
  List.insertionSort (fun a b => goStrLe a b = true) l

instance : IsTotal String fun a b => goStrLe a b = true := by
  constructor
  intro a b
  rcases le_total a b with h | h
  · exact Or.inl ((goStrLe_iff a b).mpr h)
  · exact Or.inr ((goStrLe_iff b a).mpr h)

instance : IsTrans String fun a b => goStrLe a b = true := by
  constructor
  intro a b c hab hbc
  exact (goStrLe_iff a c).mpr (le_trans ((goStrLe_iff a b).mp hab) ((goStrLe_iff b c).mp hbc))

lemma sortStrings_sorted (l : List String) : List.Sorted (· ≤ ·) (sortStrings l) := by
  have h := List.sorted_insertionSort (fun a b => goStrLe a b = true) l
  exact List.Pairwise.imp (fun h => (goStrLe_iff _ _).mp h) h

lemma sortStrings_perm (l : List String) : (sortStrings l).Perm l :=
  List.perm_insertionSort _ l

/-- Any sorted permutation of `l` is `sortStrings l`: the model does not
depend on which sorting algorithm `sort.Strings` uses. -/
lemma sortStrings_unique (l l' : List String)
    (hp : l'.Perm l) (hs : List.Sorted (· ≤ ·) l') : l' = sortStrings l :=
  List.eq_of_perm_of_sorted (hp.trans (sortStrings_perm l).symm) hs (sortStrings_sorted l)

/-! ### Adjacent deduplication (`uniqueStrings`, interface.go)

The Go function walks the sorted slice in place: `last` is the index of
the last kept element, `i` the read cursor; an element equal to
`arr[last]` is skipped, any other element is written to `arr[last+1]`
(the write is skipped when it would be a self-assignment), and finally
the slice is cut at `last+1`.  The loop advances `i` by one per step, so
we render it with a fuel argument (initialized to the array length,
always at least the remaining iteration count) to keep the definition
structurally recursive and hence computable by the kernel. -/

def uniqueStringsAux : Nat → List String → Nat → Nat → List String × Nat
  | 0, arr, last, _ => (arr, last)
  | fuel + 1, arr, last, i =>
    if i < arr.length then
      if arr.getD i "" = arr.getD last "" then
        uniqueStringsAux fuel arr last (i + 1)
      else if last + 1 ≠ i then
        uniqueStringsAux fuel (arr.set (last + 1) (arr.getD i "")) (last + 1) (i + 1)
      else
        uniqueStringsAux fuel arr (last + 1) (i + 1)
    else
      (arr, last)

def uniqueStrings (arr : List String) : List String :=
  let r := uniqueStringsAux arr.length arr 0 1
  let last := if r.2 < r.1.length then r.2 + 1 else r.2
  r.1.take last

/-- Specification-side adjacent deduplication relative to the last kept
element `prev`. -/
def dedupFrom (prev : String) : List String → List String
  | [] => []
  | a :: l => if a = prev then dedupFrom prev l else a :: dedupFrom a l

/-- Specification-side stable adjacent deduplication: keeps the first
element of every maximal run of equal adjacent elements. -/
def dedupAdjacent : List String → List String
  | [] => []
  | x :: xs => x :: dedupFrom x xs

lemma drop_eq_getD_cons {arr : List String} {i : Nat} (h : i < arr.length) :
    arr.drop i = arr.getD i "" :: arr.drop (i + 1) := by
  rw [List.getD_eq_getElem _ _ h]
  exact List.drop_eq_getElem_cons h

lemma uniqueStringsAux_spec :
    ∀ (fuel : Nat) (arr : List String) (last i : Nat),
      arr.length - i ≤ fuel → last < i → i ≤ arr.length →
      (uniqueStringsAux fuel arr last i).1.length = arr.length ∧
      (uniqueStringsAux fuel arr last i).2 < arr.length ∧
      (uniqueStringsAux fuel arr last i).1.take ((uniqueStringsAux fuel arr last i).2 + 1) =
        arr.take (last + 1) ++ dedupFrom (arr.getD last "") (arr.drop i) := by
  intro fuel
  induction fuel with
  | zero =>
    intro arr last i hn hli hil
    have hi : i = arr.length := by omega
    simp only [uniqueStringsAux]
    refine ⟨trivial, by omega, ?_⟩
    rw [List.drop_eq_nil_of_le (by omega)]
    simp [dedupFrom]
  | succ m ih =>
    intro arr last i hn hli hil
    rcases hres : uniqueStringsAux (m + 1) arr last i with ⟨a, lf⟩
    simp only [uniqueStringsAux] at hres
    by_cases hi : i < arr.length
    · rw [if_pos hi] at hres
      by_cases heq : arr.getD i "" = arr.getD last ""
      · rw [if_pos heq] at hres
        have hspec := ih arr last (i + 1) (by omega) (by omega) (by omega)
        rw [hres] at hspec
        refine ⟨hspec.1, hspec.2.1, ?_⟩
        rw [hspec.2.2, drop_eq_getD_cons hi, dedupFrom, if_pos heq]
      · rw [if_neg heq] at hres
        by_cases hne : last + 1 = i
        · rw [if_neg (not_not_intro hne)] at hres
          subst hne
          have hspec := ih arr (last + 1) (last + 1 + 1) (by omega) (by omega) (by omega)
          rw [hres] at hspec
          refine ⟨hspec.1, hspec.2.1, ?_⟩
          rw [hspec.2.2, drop_eq_getD_cons hi, dedupFrom, if_neg heq]
          rw [List.take_succ, List.getElem?_eq_getElem hi, ← List.getD_eq_getElem arr "" hi]
          simp
        · rw [if_pos hne] at hres
          have hlast : last + 1 < i := by omega
          have hlastlen : last + 1 < arr.length := by omega
          have hlen2 : (arr.set (last + 1) (arr.getD i "")).length = arr.length :=
            List.length_set arr _ _
          have hspec := ih (arr.set (last + 1) (arr.getD i "")) (last + 1) (i + 1)
            (by omega) (by omega) (by omega)
          rw [hres] at hspec
          rw [hlen2] at hspec
          refine ⟨hspec.1, hspec.2.1, ?_⟩
          rw [hspec.2.2]
          have f2 : (arr.set (last + 1) (arr.getD i "")).drop (i + 1) = arr.drop (i + 1) := by
            rw [List.drop_set]
            rw [if_pos (by omega)]
          have f1 : (arr.set (last + 1) (arr.getD i "")).getD (last + 1) "" = arr.getD i "" := by
            rw [List.getD_eq_getElem _ "" (by rw [hlen2]; exact hlastlen)]
            simp [List.getElem_set]
          have f3 : (arr.set (last + 1) (arr.getD i "")).take (last + 1 + 1) =
              arr.take (last + 1) ++ [arr.getD i ""] := by
            rw [List.take_succ]
            have htk : (arr.set (last + 1) (arr.getD i "")).take (last + 1) =
                arr.take (last + 1) := by
              apply List.ext_getElem?
              intro n
              simp only [List.getElem?_take, List.getElem?_set]
              by_cases hnn : n < last + 1
              · rw [if_pos hnn, if_pos hnn, if_neg (by omega)]
              · rw [if_neg hnn, if_neg hnn]
            rw [htk]
            have hg : (arr.set (last + 1) (arr.getD i ""))[last + 1]? =
                some (arr.getD i "") := by
              rw [List.getElem?_set]
              rw [if_pos rfl, if_pos hlastlen]
            rw [hg]
            rfl
          rw [f1, f2, f3, drop_eq_getD_cons hi, dedupFrom, if_neg heq]
          simp
    · rw [if_neg hi] at hres
      cases hres
      refine ⟨rfl, by omega, ?_⟩
      rw [List.drop_eq_nil_of_le (by omega)]
      simp [dedupFrom]

lemma uniqueStrings_eq_dedupAdjacent : ∀ l : List String, uniqueStrings l = dedupAdjacent l := by
  intro l
  cases l with
  | nil => rfl
  | cons x xs =>
    have hspec := uniqueStringsAux_spec (x :: xs).length (x :: xs) 0 1
      (by simp) (by omega) (by simp)
    unfold uniqueStrings
    rcases hres : uniqueStringsAux (x :: xs).length (x :: xs) 0 1 with ⟨a, lf⟩
    rw [hres] at hspec
    simp only
    rw [if_pos (by rw [hspec.1]; exact hspec.2.1)]
    rw [hspec.2.2]
    simp [dedupAdjacent, List.getD]

lemma dedupFrom_sublist (prev : String) : ∀ l : List String, (dedupFrom prev l).Sublist l := by
  intro l
  induction l generalizing prev with
  | nil => simp [dedupFrom]
  | cons a l ih =>
    rw [dedupFrom]
    by_cases h : a = prev
    · rw [if_pos h]
      exact (ih prev).cons a
    · rw [if_neg h]
      exact (ih a).cons₂ a

lemma dedupAdjacent_sublist (l : List String) : (dedupAdjacent l).Sublist l := by
  cases l with
  | nil => simp [dedupAdjacent]
  | cons x xs => exact (dedupFrom_sublist x xs).cons₂ x

lemma mem_cons_dedupFrom (x : String) :
    ∀ (l : List String) (prev : String), x ∈ prev :: dedupFrom prev l ↔ x ∈ prev :: l := by
  intro l
  induction l with
  | nil => intro prev; simp [dedupFrom]
  | cons a l ih =>
    intro prev
    rw [dedupFrom]
    by_cases h : a = prev
    · rw [if_pos h]
      subst h
      rw [ih a]
      simp only [List.mem_cons]
      tauto
    · rw [if_neg h]
      have hia := ih a
      simp only [List.mem_cons] at hia ⊢
      tauto

lemma mem_dedupAdjacent (l : List String) (x : String) : x ∈ dedupAdjacent l ↔ x ∈ l := by
  cases l with
  | nil => simp [dedupAdjacent]
  | cons a l => exact mem_cons_dedupFrom x l a

lemma chain_cons_dedupFrom (prev : String) :
    ∀ l : List String, List.Chain' (· ≠ ·) (prev :: dedupFrom prev l) := by
  intro l
  induction l generalizing prev with
  | nil => simp [dedupFrom]
  | cons a l ih =>
    rw [dedupFrom]
    by_cases h : a = prev
    · rw [if_pos h]
      exact ih prev
    · rw [if_neg h]
      rw [List.chain'_cons]
      exact ⟨fun he => h he.symm, ih a⟩

lemma chain_dedupAdjacent (l : List String) : List.Chain' (· ≠ ·) (dedupAdjacent l) := by
  cases l with
  | nil => simp [dedupAdjacent]
  | cons a l => exact chain_cons_dedupFrom a l

/-! ### Data model

Domain objects carry exactly the fields the embedded code reads or
writes.  String constants mirror the `configv1` / `corev1` constants
used by the source. -/

def OperatorDegraded : String := "Degraded"

def OperatorAvailable : String := "Available"

def ConditionTrue : String := "True"

def ConditionFalse : String := "False"

def NodeReady : String := "Ready"

def PodPending : String := "Pending"

structure ClusterOperatorCondition where
  type : String
  status : String
deriving DecidableEq

structure ObjectReference where
  resource : String
  name : String
deriving DecidableEq

structure ClusterOperator where
  name : String
  conditions : List ClusterOperatorCondition
  relatedObjects : List ObjectReference
deriving DecidableEq

structure NodeCondition where
  type : String
  status : String
deriving DecidableEq

/-- A node; `annotations` and `labels` are Go maps rendered as
association lists (the code only iterates them entry-wise). -/
structure Node where
  name : String
  annotations : List (String × String)
  labels : List (String × String)
  conditions : List NodeCondition
  addresses : List String
  bootID : String
  systemUUID : String
  machineID : String
  images : List String
deriving DecidableEq

structure ContainerStateTerminated where
  exitCode : Int
deriving DecidableEq

/-- Container status: `lastTerminated` models
`LastTerminationState.Terminated` and `terminated` models
`State.Terminated` (nil pointers become `none`). -/
structure ContainerStatus where
  lastTerminated : Option ContainerStateTerminated
  terminated : Option ContainerStateTerminated
deriving DecidableEq

structure Pod where
  name : String
  ns : String
  phase : String
  initContainerStatuses : List ContainerStatus
  containerStatuses : List ContainerStatus
deriving DecidableEq

structure ClusterVersion where
  resourceVersion : String
  clusterID : String
deriving DecidableEq

/-- Result of `Collect`'s per-routine bookkeeping: the
`gatherStatusReport` struct of interface.go (`Errors []error` is kept as
the list of error messages). -/
structure GatherStatusReport where
  name : String
  elapsed : Nat
  report : Nat
  errors : List String
deriving DecidableEq

/-- The serialization payload attached to a record (`record.Marshalable`):
one constructor per `Marshal` implementation this pipeline attaches. -/
inductive Marshalable where
  | raw (s : String)
  | jsonReport (report : List GatherStatusReport)
  | clusterOperator (op : ClusterOperator)
  | pod (p : Pod)
  | node (n : Node)
  | clusterVersion (v : ClusterVersion)
  | generic (tag : String)
deriving DecidableEq

/-- `record.Record`; `captured` and `fingerprint` default to the Go zero
values with which every record in these files is built. -/
structure Record where
  name : String
  captured : Nat := 0
  fingerprint : String := ""
  item : Marshalable
deriving DecidableEq

/-- One entry of `bulkFns`: its reflected function name, the measured
wall-clock duration of its invocation in nanoseconds (an input of the
model), and the `([]record.Record, []error)` pair it returns. -/
structure Routine where
  name : String
  elapsedNs : Nat
  run : List Record × List String
deriving DecidableEq

/-! ### The Collect orchestrator (interface.go)

The recorder sink is a state machine: `sink s r` returns the new sink
state and `some msg` when `recorder.Record(r)` fails with error message
`msg`.  Cooperative cancellation is an input `ctxErr : Nat → Option
String` giving the result of `ctx.Err()` at the check made after the
`k`-th routine (0-based) has been processed. -/

def recordFailMsg (name msg : String) : String :=
  "unable to record " ++ name ++ ": " ++ msg

def reportFailMsg (msg : String) : String :=
  "unable to record io status reports: " ++ msg

def truncateMs (ns : Nat) : Nat := ns / 1000000 * 1000000

section Collect

variable {σ : Type} (sink : σ → Record → σ × Option String)

/-- The inner `for _, record := range records` loop of `Collect`:
forward each record to the sink, converting each failure into one
`recordFailMsg` appended to the running error list. -/
def forwardRecords : σ → List String → List Record → σ × List String
  | s, errs, [] => (s, errs)
  | s, errs, r :: rs =>
    match sink s r with
    | (s', none) => forwardRecords s' errs rs
    | (s', some e) => forwardRecords s' (errs ++ [recordFailMsg r.name e]) rs

variable (ctxErr : Nat → Option String)

/-- The main `for _, bulkFn := range bulkFns` loop of `Collect`.
Returns the final sink state, running error list, gather report and
`some e` when `ctx.Err()` cut the loop short. -/
def collectRoutines :
    List Routine → σ → Nat → List String → List GatherStatusReport →
      σ × List String × List GatherStatusReport × Option String
  | [], s, _, errs, rep => (s, errs, rep, none)
  | f :: fs, s, k, errs, rep =>
    let rep' := rep ++ [⟨f.name, truncateMs f.elapsedNs, f.run.1.length, f.run.2⟩]
    let errs1 := errs ++ f.run.2
    let fr := forwardRecords sink s errs1 f.run.1
    match ctxErr k with
    | some e => (fr.1, fr.2, rep', some e)
    | none => collectRoutines fs fr.1 (k + 1) fr.2 rep'

/-- The synthetic end-of-batch record built by `recordGatherReport`. -/
def reportRecord (report : List GatherStatusReport) : Record :=
  { name := "insights-operator/gathers", item := Marshalable.jsonReport report }

/-- `recordGatherReport recorder report` forwards the report record. -/
def recordGatherReport (s : σ) (report : List GatherStatusReport) : σ × Option String :=
  sink s (reportRecord report)

structure CollectOutcome (σ : Type) where
  state : σ
  errs : List String
  reports : List GatherStatusReport
  cancel : Option String

/-- `Collect` up to and including the report emission: final sink state,
accumulated error-message list, gather report, and the cancellation
error when one was observed. -/
def collectCore (fs : List Routine) (s0 : σ) : CollectOutcome σ :=
  match collectRoutines sink ctxErr fs s0 0 [] [] with
  | (s, errs, rep, some e) => ⟨s, errs, rep, some e⟩
  | (s, errs, rep, none) =>
    match recordGatherReport sink s rep with
    | (s', none) => ⟨s', errs, rep, none⟩
    | (s', some e) => ⟨s', errs ++ [reportFailMsg e], rep, none⟩

/-- `record.Collect`: the complete orchestrator, returning the final
sink state and the error `Collect` returns (with `none` for a nil
error). -/
def Collect (fs : List Routine) (s0 : σ) : σ × Option String :=
  let c := collectCore sink ctxErr fs s0
  match c.cancel with
  | some e => (c.state, some e)
  | none =>
    if c.errs.length > 0 then
      (c.state, some (String.intercalate ", " (uniqueStrings (sortStrings c.errs))))
    else
      (c.state, none)

/-! Specification-side descriptions of a cancellation-free run, used to
state the claims without re-quoting the loop. -/

/-- Sink state after forwarding every record of `rs` in order. -/
def forwardAll : σ → List Record → σ
  | s, [] => s
  | s, r :: rs => forwardAll (sink s r).1 rs

/-- The failure messages produced while forwarding every record of
`rs`: exactly one `recordFailMsg` per record whose sink call fails. -/
def forwardMsgs : σ → List Record → List String
  | _, [] => []
  | s, r :: rs =>
    match (sink s r).2 with
    | none => forwardMsgs (sink s r).1 rs
    | some e => recordFailMsg r.name e :: forwardMsgs (sink s r).1 rs

/-- Sink state after forwarding the records of every routine in order. -/
def runState : σ → List Routine → σ
  | s, [] => s
  | s, f :: fs => runState (forwardAll sink s f.run.1) fs

/-- Error-message list of a cancellation-free run, before the report
step: for each routine in order, its own errors followed by one message
per record whose forwarding failed. -/
def runErrors : σ → List Routine → List String
  | _, [] => []
  | s, f :: fs => f.run.2 ++ forwardMsgs sink s f.run.1 ++ runErrors (forwardAll sink s f.run.1) fs

end Collect

/-- One report entry per routine, in routine order. -/
def reportsOf (fs : List Routine) : List GatherStatusReport :=
  fs.map fun f => ⟨f.name, truncateMs f.elapsedNs, f.run.1.length, f.run.2⟩

/-- A sink that accepts every record and logs it: used to observe which
records a run forwards. -/
def traceSink : List Record → Record → List Record × Option String :=
  fun t r => (t ++ [r], none)

/-- A sink without internal state whose success or failure depends only
on the record, lifted to the state-machine interface. -/
def statelessSink (f : Record → Option String) : Unit → Record → Unit × Option String :=
  fun _ r => ((), f r)

/-- The error messages the report-forwarding step contributes. -/
def reportTail : Option String → List String
  | none => []
  | some e => [reportFailMsg e]

section CollectLemmas

variable {σ : Type} (sink : σ → Record → σ × Option String) (ctxErr : Nat → Option String)

lemma forwardRecords_eq :
    ∀ (rs : List Record) (s : σ) (errs : List String),
      forwardRecords sink s errs rs = (forwardAll sink s rs, errs ++ forwardMsgs sink s rs) := by
  intro rs
  induction rs with
  | nil => intro s errs; simp [forwardRecords, forwardAll, forwardMsgs]
  | cons r rs ih =>
    intro s errs
    rcases hsr : sink s r with ⟨s', e⟩
    cases e with
    | none =>
      simp only [forwardRecords, forwardAll, forwardMsgs, hsr]
      exact ih s' errs
    | some msg =>
      simp only [forwardRecords, forwardAll, forwardMsgs, hsr]
      rw [ih s']
      simp

lemma collectRoutines_noCancel (h : ∀ k, ctxErr k = none) :
    ∀ (fs : List Routine) (s : σ) (k : Nat) (errs : List String)
      (rep : List GatherStatusReport),
      collectRoutines sink ctxErr fs s k errs rep =
        (runState sink s fs, errs ++ runErrors sink s fs, rep ++ reportsOf fs, none) := by
  intro fs
  induction fs with
  | nil => intro s k errs rep; simp [collectRoutines, runState, runErrors, reportsOf]
  | cons f fs ih =>
    intro s k errs rep
    simp only [collectRoutines, h k, forwardRecords_eq]
    rw [ih]
    simp only [runState, runErrors, reportsOf, List.map_cons]
    simp [List.append_assoc]

lemma collectCore_noCancel (h : ∀ k, ctxErr k = none) (fs : List Routine) (s0 : σ) :
    collectCore sink ctxErr fs s0 =
      ⟨(recordGatherReport sink (runState sink s0 fs) (reportsOf fs)).1,
       runErrors sink s0 fs ++
         reportTail (recordGatherReport sink (runState sink s0 fs) (reportsOf fs)).2,
       reportsOf fs, none⟩ := by
  simp only [collectCore, collectRoutines_noCancel sink ctxErr h]
  rcases hr : recordGatherReport sink (runState sink s0 fs) (reportsOf fs) with ⟨s', e⟩
  cases e with
  | none => simp [hr, reportTail]
  | some msg => simp [hr, reportTail]

lemma collectRoutines_cancel (e : String) :
    ∀ (pre : List Routine) (f : Routine) (post : List Routine) (s : σ) (k : Nat)
      (errs : List String) (rep : List GatherStatusReport),
      (∀ j, j < pre.length → ctxErr (k + j) = none) →
      ctxErr (k + pre.length) = some e →
      collectRoutines sink ctxErr (pre ++ f :: post) s k errs rep =
        (runState sink s (pre ++ [f]), errs ++ runErrors sink s (pre ++ [f]),
         rep ++ reportsOf (pre ++ [f]), some e) := by
  intro pre
  induction pre with
  | nil =>
    intro f post s k errs rep _ h2
    simp only [List.length_nil, Nat.add_zero] at h2
    simp only [List.nil_append, collectRoutines, h2, forwardRecords_eq]
    simp [runState, runErrors, reportsOf, forwardAll]
  | cons a pre ih =>
    intro f post s k errs rep h1 h2
    have h0 : ctxErr k = none := by
      have := h1 0 (by simp)
      simpa using this
    simp only [List.cons_append, collectRoutines, h0, forwardRecords_eq]
    simp only [List.append_eq]
    rw [ih f post (forwardAll sink s a.run.1) (k + 1) _ _
      (fun j hj => by
        have := h1 (j + 1) (by simpa using Nat.succ_lt_succ hj)
        simpa [Nat.add_assoc, Nat.add_comm 1 j] using this)
      (by
        have : k + (a :: pre).length = k + 1 + pre.length := by simp; omega
        rw [this] at h2
        exact h2)]
    simp only [runState, runErrors, reportsOf, List.map_cons, List.cons_append]
    simp [List.append_assoc]

lemma forwardAll_traceSink : ∀ (rs : List Record) (t : List Record),
    forwardAll traceSink t rs = t ++ rs := by
  intro rs
  induction rs with
  | nil => intro t; simp [forwardAll]
  | cons r rs ih => intro t; simp [forwardAll, traceSink, ih]

lemma runState_traceSink : ∀ (fs : List Routine) (t : List Record),
    runState traceSink t fs = t ++ fs.flatMap (fun f => f.run.1) := by
  intro fs
  induction fs with
  | nil => intro t; simp [runState]
  | cons f fs ih => intro t; simp [runState, forwardAll_traceSink, ih]

end CollectLemmas

/-! ### Gather routines and transforms (clusterconfig.go)

Remote API calls are inputs: a listing/get call yields `Except ApiError
T` where `ApiError.notFound` models `errors.IsNotFound`.  The pod
listing inside the cluster-operator routine returns its list together
with an optional error because the code keeps iterating the returned
list after merely logging a failure. -/

structure ApiError where
  notFound : Bool
  msg : String
deriving DecidableEq

/-- The Go loop returns false (unhealthy) as soon as one condition is
`Degraded=True` or `Available=False`, and true otherwise; rendered as
`List.all` of the negated switch condition. -/
def isHealthyOperator (operator : ClusterOperator) : Bool :=
  operator.conditions.all fun condition =>
    !((condition.type == OperatorDegraded && condition.status == ConditionTrue) ||
      (condition.type == OperatorAvailable && condition.status == ConditionFalse))

/-- Names of related objects whose resource is "namespaces". -/
def namespacesForOperator (operator : ClusterOperator) : List String :=
  (operator.relatedObjects.filter fun ref => ref.resource == "namespaces").map fun ref => ref.name

/-- The Go loop returns false as soon as a condition has type `Ready`
and a status other than `True`. -/
def isHealthyNode (node : Node) : Bool :=
  node.conditions.all fun condition =>
    !(condition.type == NodeReady && condition.status != ConditionTrue)

def terminatedNonzero : Option ContainerStateTerminated → Bool
  | some t => t.exitCode != 0
  | none => false

def containerStatusBad (status : ContainerStatus) : Bool :=
  terminatedNonzero status.lastTerminated || terminatedNonzero status.terminated

/-- Pending pods are unhealthy; otherwise a pod is unhealthy as soon as
an init or regular container has terminated (currently or last time)
with a non-zero exit code. -/
def isHealthyPod (pod : Pod) : Bool :=
  if pod.phase == PodPending then false
  else if pod.initContainerStatuses.any containerStatusBad then false
  else if pod.containerStatuses.any containerStatusBad then false
  else true

/-- Go `strings.Repeat("x", len(s))`: `len` counts UTF-8 bytes. -/
def anonymizeString (s : String) : String :=
  String.mk (List.replicate s.utf8ByteSize 'x')

/-- Go `strings.Contains(s, pat)` searches at the byte level; for the
ASCII patterns used here a byte-level occurrence is exactly a character
level occurrence (no UTF-8 continuation byte is ASCII). -/
def containsSubstr (s pat : String) : Bool := decide (List.IsInfix pat.data s.data)

def isProductNamespacedKey (key : String) : Bool :=
  containsSubstr key "openshift.io/" || containsSubstr key "k8s.io/" ||
    containsSubstr key "kubernetes.io/"

/-- The node anonymizer.  `anonymizeURL` wraps the external
`urlhash.HashURL` library, an opaque collaborator of this repository; it
is a parameter of the model and no claim depends on its values.  Go
mutates the maps value-by-value and never touches keys; on the
association-list rendering that is an entry-wise `map` keeping the first
component. -/
def anonymizeNode (anonymizeURL : String → String) (node : Node) : Node :=
  { node with
    annotations := node.annotations.map fun kv =>
      if isProductNamespacedKey kv.1 then kv else (kv.1, ""),
    labels := node.labels.map fun kv =>
      if isProductNamespacedKey kv.1 then kv else (kv.1, anonymizeString kv.2),
    addresses := node.addresses.map anonymizeURL,
    bootID := anonymizeString node.bootID,
    systemUUID := anonymizeString node.systemUUID,
    machineID := anonymizeString node.machineID,
    images := [] }

/-- The pod anonymizer returns the pod unchanged. -/
def anonymizePod (pod : Pod) : Pod := pod

/-- `Raw.Marshal`: the UTF-8 bytes of the wrapped string (`[]byte(s)`),
never an error. -/
def rawMarshal (s : String) : List UInt8 × Option String :=
  (s.data.flatMap String.utf8EncodeChar, none)

/-! The routines passed to `record.Collect` by `Gatherer.Gather`, in
source order.  Each takes the outcome of its data-source call as
input. -/

/-- First routine: list cluster operators; record every operator; then,
for each unhealthy operator, list the pods of each of its related
namespaces (a listing failure is only logged) and record the unhealthy
ones. -/
def clusterOperatorsRoutine
    (listClusterOperators : Except ApiError (List ClusterOperator))
    (listPods : String → List Pod × Option ApiError) :
    List Record × List String :=
  match listClusterOperators with
  | .error e => if e.notFound then ([], []) else ([], [e.msg])
  | .ok items =>
    let records := items.map fun op =>
      { name := "config/clusteroperator/" ++ op.name,
        item := Marshalable.clusterOperator op : Record }
    let podRecords := items.flatMap fun op =>
      if isHealthyOperator op then []
      else
        (namespacesForOperator op).flatMap fun namespaceName =>
          ((listPods namespaceName).1.filter fun p => !isHealthyPod p).map fun p =>
            { name := "config/pod/" ++ p.ns ++ "/" ++ p.name,
              item := Marshalable.pod p : Record }
    (records ++ podRecords, [])

/-- Second routine: list nodes (no not-found special case in the code)
and record the unhealthy ones. -/
def nodesRoutine (listNodes : Except ApiError (List Node)) : List Record × List String :=
  match listNodes with
  | .error e => ([], [e.msg])
  | .ok items =>
    ((items.filter fun n => !isHealthyNode n).map fun n =>
      { name := "config/node/" ++ n.name, item := Marshalable.node n : Record }, [])

/-- `Gatherer.setClusterVersion`: replace the cached entry unless the
incoming object carries the same resourceVersion (`DeepCopy` is the
identity on values). -/
def setClusterVersion (lastVersion : Option ClusterVersion) (version : ClusterVersion) :
    Option ClusterVersion :=
  match lastVersion with
  | some lastV =>
    if lastV.resourceVersion == version.resourceVersion then some lastV
    else some version
  | none => some version

/-- Third routine: get the cluster version, store it into the shared
cache, and record it; returns the pair outcome together with the new
cache content. -/
def clusterVersionRoutine (getVersion : Except ApiError ClusterVersion)
    (lastVersion : Option ClusterVersion) :
    (List Record × List String) × Option ClusterVersion :=
  match getVersion with
  | .error e =>
    if e.notFound then (([], []), lastVersion) else (([], [e.msg]), lastVersion)
  | .ok config =>
    (([{ name := "config/version", item := Marshalable.clusterVersion config }], []),
      setClusterVersion lastVersion config)

/-- Fourth routine: read the shared cache; no records when it is empty,
otherwise one raw record with the cached ClusterID. -/
def clusterIDRoutine (lastVersion : Option ClusterVersion) : List Record × List String :=
  match lastVersion with
  | none => ([], [])
  | some version =>
    ([{ name := "config/id", item := Marshalable.raw version.clusterID }], [])

/-- Common shape of the remaining routines (infrastructure, network,
authentication, featuregate, oauth, ingress, proxy): get a singleton,
treat not-found as success with zero records, record it otherwise. -/
def getSingletonRoutine {α : Type} (get : Except ApiError α) (recordName : String)
    (wrap : α → Marshalable) : List Record × List String :=
  match get with
  | .error e => if e.notFound then ([], []) else ([], [e.msg])
  | .ok config => ([{ name := recordName, item := wrap config }], [])

/-- Specification-side description of the pod records gathered for one
(unhealthy) operator. -/
def podRecordsFor (listPods : String → List Pod × Option ApiError)
    (op : ClusterOperator) : List Record :=
  (namespacesForOperator op).flatMap fun namespaceName =>
    ((listPods namespaceName).1.filter fun p => !isHealthyPod p).map fun p =>
      { name := "config/pod/" ++ p.ns ++ "/" ++ p.name, item := Marshalable.pod p }

/-- Specification-side description of one node record. -/
def nodeRecord (n : Node) : Record :=
  { name := "config/node/" ++ n.name, item := Marshalable.node n }

/-! ### Claim theorems -/

/-- C1: in every run of `Collect` that reaches the aggregation step
(i.e. is not cut short by cancellation), a non-empty accumulated
error-message list is returned as one error whose message is the list
sorted lexicographically with adjacent duplicates removed (the result is
sorted, has no equal adjacent entries, and has exactly the members of
the accumulated list), joined with ", "; an empty accumulated list
yields no error; and dedupe(sort(["b","a","a","c"])) = ["a","b","c"]. -/
theorem collect_error_aggregation {σ : Type} (sink : σ → Record → σ × Option String)
    (ctxErr : Nat → Option String) (fs : List Routine) (s0 : σ)
    (hnc : (collectCore sink ctxErr fs s0).cancel = none) :
    ((collectCore sink ctxErr fs s0).errs = [] → (Collect sink ctxErr fs s0).2 = none) ∧
    ((collectCore sink ctxErr fs s0).errs ≠ [] →
      (Collect sink ctxErr fs s0).2 =
        some (String.intercalate ", "
          (dedupAdjacent (sortStrings (collectCore sink ctxErr fs s0).errs))) ∧
      List.Sorted (· ≤ ·) (dedupAdjacent (sortStrings (collectCore sink ctxErr fs s0).errs)) ∧
      List.Chain' (· ≠ ·) (dedupAdjacent (sortStrings (collectCore sink ctxErr fs s0).errs)) ∧
      ∀ x, x ∈ dedupAdjacent (sortStrings (collectCore sink ctxErr fs s0).errs) ↔
        x ∈ (collectCore sink ctxErr fs s0).errs) ∧
    dedupAdjacent (sortStrings ["b", "a", "a", "c"]) = ["a", "b", "c"] := by
  refine ⟨?_, ?_, by decide⟩
  · intro he
    simp [Collect, hnc, he]
  · intro he
    have hl : (collectCore sink ctxErr fs s0).errs.length > 0 :=
      List.length_pos.mpr he
    refine ⟨?_, ?_, chain_dedupAdjacent _, ?_⟩
    · simp only [Collect, hnc]
      rw [if_pos hl, uniqueStrings_eq_dedupAdjacent]
    · exact List.Pairwise.sublist (dedupAdjacent_sublist _) (sortStrings_sorted _)
    · intro x
      rw [mem_dedupAdjacent, (sortStrings_perm _).mem_iff]

/-- Witness for C1: a concrete cancellation-free run with accumulated
errors ["x", "a", "x"] returns the single aggregate error "a, x". -/
theorem collect_error_aggregation_witness :
    (collectCore (statelessSink fun _ => none) (fun _ => none)
        [⟨"f1", 0, ([], ["x", "a", "x"])⟩] ()).cancel = none ∧
    (Collect (statelessSink fun _ => none) (fun _ => none)
        [⟨"f1", 0, ([], ["x", "a", "x"])⟩] ()).2 = some "a, x" := by
  refine ⟨by decide, ?_⟩
  have h := collect_error_aggregation (statelessSink fun _ => none) (fun _ => none)
    [⟨"f1", 0, ([], ["x", "a", "x"])⟩] () (by decide)
  rw [(h.2.1 (by decide)).1]
  decide

/-- C2: when `ctx.Err()` is first set at the check following the
processing of routine `f`, `Collect` returns that cancellation error
itself, bare; the outcome does not depend on the remaining routines, the
sink state is exactly the one after forwarding the records of the
processed prefix, and (shown with the trace sink) the report record is
never forwarded. -/
theorem collect_cancellation {σ : Type} (sink : σ → Record → σ × Option String)
    (ctxErr : Nat → Option String) (pre : List Routine) (f : Routine) (post : List Routine)
    (s0 : σ) (e : String)
    (h1 : ∀ j, j < pre.length → ctxErr j = none)
    (h2 : ctxErr pre.length = some e) :
    Collect sink ctxErr (pre ++ f :: post) s0 = (runState sink s0 (pre ++ [f]), some e) ∧
    (Collect traceSink ctxErr (pre ++ f :: post) ([] : List Record)).1 =
      (pre ++ [f]).flatMap fun g => g.run.1 := by
  have hc := collectRoutines_cancel sink ctxErr e pre f post s0 0 [] []
    (fun j hj => by simpa using h1 j hj) (by simpa using h2)
  have hct := collectRoutines_cancel traceSink ctxErr e pre f post [] 0 [] []
    (fun j hj => by simpa using h1 j hj) (by simpa using h2)
  constructor
  · simp [Collect, collectCore, hc]
  · simp [Collect, collectCore, hct, runState_traceSink]

/-- Witness for C2: cancellation signalled after the second of three
routines; the third routine's error "z" and the gather report never make
it out, and its records are never forwarded. -/
theorem collect_cancellation_witness :
    Collect (statelessSink fun _ => none)
        (fun k => if k = 0 then none else some "context canceled")
        ([⟨"f1", 0, ([], [])⟩] ++ ⟨"f2", 0, ([], ["y"])⟩ :: [⟨"f3", 0, ([], ["z"])⟩]) () =
      ((), some "context canceled") := by
  have h := collect_cancellation (statelessSink fun _ => none)
    (fun k => if k = 0 then none else some "context canceled")
    [⟨"f1", 0, ([], [])⟩] ⟨"f2", 0, ([], ["y"])⟩ [⟨"f3", 0, ([], ["z"])⟩] () "context canceled"
    (fun j hj => by
      have hj0 : j = 0 := by simpa using hj
      subst hj0
      rfl)
    (by rfl)
  rw [h.1]

/-- C3: in a cancellation-free run a sink failure is never fatal: the
run processes every routine, appends exactly one
"unable to record name: msg" message per record whose forwarding fails
(`forwardMsgs` computes one `recordFailMsg` exactly for the failing
calls, as the stateless characterization shows), keeps forwarding the
remaining records, and still attempts the final report record. -/
theorem collect_sink_failures {σ : Type} (sink : σ → Record → σ × Option String)
    (ctxErr : Nat → Option String) (fs : List Routine) (s0 : σ)
    (h : ∀ k, ctxErr k = none) :
    collectCore sink ctxErr fs s0 =
      ⟨(recordGatherReport sink (runState sink s0 fs) (reportsOf fs)).1,
       runErrors sink s0 fs ++
         reportTail (recordGatherReport sink (runState sink s0 fs) (reportsOf fs)).2,
       reportsOf fs, none⟩ ∧
    ∀ (f : Record → Option String) (rs : List Record),
      forwardMsgs (statelessSink f) () rs =
        rs.filterMap fun r => (f r).map fun msg => recordFailMsg r.name msg := by
  refine ⟨collectCore_noCancel sink ctxErr h fs s0, ?_⟩
  intro f rs
  induction rs with
  | nil => simp [forwardMsgs]
  | cons r rs ih =>
    cases hr : f r with
    | none => simp [forwardMsgs, statelessSink, hr, ih]
    | some msg => simp [forwardMsgs, statelessSink, hr, ih]

/-- Witness for C3: a sink whose record call always fails still yields a
complete run, with one message per attempted record plus the message for
the attempted report record. -/
theorem collect_sink_failures_witness :
    (collectCore (statelessSink fun r => some ("boom " ++ r.name)) (fun _ => none)
        [⟨"f1", 0, ([⟨"r1", 0, "", Marshalable.raw "v"⟩, ⟨"r2", 0, "", Marshalable.raw "w"⟩],
          [])⟩] ()).errs =
      ["unable to record r1: boom r1", "unable to record r2: boom r2",
       "unable to record io status reports: boom insights-operator/gathers"] := by
  have h := collect_sink_failures (statelessSink fun r => some ("boom " ++ r.name))
    (fun _ => none)
    [⟨"f1", 0, ([⟨"r1", 0, "", Marshalable.raw "v"⟩, ⟨"r2", 0, "", Marshalable.raw "w"⟩], [])⟩]
    () (fun _ => rfl)
  rw [h.1]
  decide

/-- C4: a cancellation-free run appends exactly one gather-report entry
per routine in routine order — carrying the routine's record count and
errors — then forwards a single record named "insights-operator/gathers"
whose content is the JSON marshaller of the full entry sequence; a
failure of that forwarding is appended to the error list instead of
aborting. -/
theorem collect_gather_report {σ : Type} (sink : σ → Record → σ × Option String)
    (ctxErr : Nat → Option String) (fs : List Routine) (s0 : σ)
    (h : ∀ k, ctxErr k = none) :
    (collectCore sink ctxErr fs s0).cancel = none ∧
    (collectCore sink ctxErr fs s0).reports =
      (fs.map fun f => ⟨f.name, truncateMs f.elapsedNs, f.run.1.length, f.run.2⟩) ∧
    reportRecord ((collectCore sink ctxErr fs s0).reports) =
      { name := "insights-operator/gathers",
        item := Marshalable.jsonReport (reportsOf fs) } ∧
    (collectCore sink ctxErr fs s0).state =
      (sink (runState sink s0 fs) (reportRecord (reportsOf fs))).1 ∧
    ∀ e, (sink (runState sink s0 fs) (reportRecord (reportsOf fs))).2 = some e →
      (collectCore sink ctxErr fs s0).errs = runErrors sink s0 fs ++ [reportFailMsg e] := by
  have hc := collectCore_noCancel sink ctxErr h fs s0
  rw [hc]
  refine ⟨rfl, rfl, rfl, rfl, ?_⟩
  · intro e he
    simp [recordGatherReport, he, reportTail]

/-- Witness for C4: a routine returning no records and the error "x"
contributes the report entry (name "f2", 0 records, errors ["x"]). -/
theorem collect_gather_report_witness :
    (collectCore traceSink (fun _ => none) [⟨"f2", 0, ([], ["x"])⟩] []).reports =
      [⟨"f2", 0, 0, ["x"]⟩] := by
  have h := collect_gather_report traceSink (fun _ => none) [⟨"f2", 0, ([], ["x"])⟩] []
    (fun _ => rfl)
  rw [h.2.1]
  decide

/-- C5 counterexample: a cluster operator carrying no Degraded/Available
condition is judged healthy, yet the routine still emits its record —
healthy cluster operators are not omitted from the emitted records. -/
theorem healthy_operator_still_recorded :
    isHealthyOperator ⟨"monitoring", [], []⟩ = true ∧
    (clusterOperatorsRoutine (Except.ok [⟨"monitoring", [], []⟩]) fun _ => ([], none)).1 =
      [{ name := "config/clusteroperator/monitoring",
         item := Marshalable.clusterOperator ⟨"monitoring", [], []⟩ }] := by
  exact ⟨by decide, by decide⟩

/-- C5 amended: every observed cluster operator is wrapped as a Record
regardless of its health; the health predicate instead gates the
secondary pod gathering, which runs exactly for the operators judged
unhealthy (each gathered pod being filtered by the pod predicate, as
`podRecordsFor` shows). -/
theorem cluster_operator_health_gates_pods
    (items : List ClusterOperator) (listPods : String → List Pod × Option ApiError) :
    (clusterOperatorsRoutine (Except.ok items) listPods).1 =
      (items.map fun op =>
        { name := "config/clusteroperator/" ++ op.name,
          item := Marshalable.clusterOperator op }) ++
        ((items.filter fun op => !isHealthyOperator op).flatMap (podRecordsFor listPods)) ∧
    (clusterOperatorsRoutine (Except.ok items) listPods).2 = [] := by
  refine ⟨?_, rfl⟩
  simp only [clusterOperatorsRoutine]
  congr 1
  induction items with
  | nil => rfl
  | cons op items ih =>
    cases h : isHealthyOperator op with
    | true => simpa [h] using ih
    | false =>
      simp only [List.flatMap_cons, List.filter_cons, h, Bool.not_false, if_true, if_pos]
      rw [ih]
      rfl

/-- C6 counterexample: one unhealthy operator whose related-namespace
pod listing fails; the routine returns one record and no error, not one
error and zero records. -/
theorem pod_listing_failure_swallowed :
    (clusterOperatorsRoutine
        (Except.ok [⟨"etcd", [⟨"Degraded", "True"⟩], [⟨"namespaces", "openshift-etcd"⟩]⟩])
        fun _ => ([], some ⟨false, "pods list failed"⟩)).1.length = 1 ∧
    (clusterOperatorsRoutine
        (Except.ok [⟨"etcd", [⟨"Degraded", "True"⟩], [⟨"namespaces", "openshift-etcd"⟩]⟩])
        fun _ => ([], some ⟨false, "pods list failed"⟩)).2 = [] := by
  exact ⟨by decide, by decide⟩

/-- C6 amended: routine-level atomicity holds for the top-level call of
each routine — a non-not-found data-source failure yields exactly one
error and zero records — but the nested pod listing of the
cluster-operator routine is exempt: its failure is only logged, the
routine surfaces no error and its outcome equals that of a run whose pod
listing succeeded with the same list. -/
theorem routine_source_failures (e : ApiError) (he : e.notFound = false) :
    (∀ listPods, clusterOperatorsRoutine (Except.error e) listPods = ([], [e.msg])) ∧
    nodesRoutine (Except.error e) = ([], [e.msg]) ∧
    (∀ lastVersion,
      clusterVersionRoutine (Except.error e) lastVersion = (([], [e.msg]), lastVersion)) ∧
    (∀ (α : Type) (recordName : String) (wrap : α → Marshalable),
      getSingletonRoutine (Except.error e : Except ApiError α) recordName wrap =
        ([], [e.msg])) ∧
    (∀ items listPods,
      (clusterOperatorsRoutine (Except.ok items) listPods).2 = [] ∧
      clusterOperatorsRoutine (Except.ok items) listPods =
        clusterOperatorsRoutine (Except.ok items) fun namespaceName =>
          ((listPods namespaceName).1, none)) := by
  refine ⟨?_, rfl, ?_, ?_, ?_⟩
  · intro listPods
    simp [clusterOperatorsRoutine, he]
  · intro lastVersion
    simp [clusterVersionRoutine, he]
  · intro α recordName wrap
    simp [getSingletonRoutine, he]
  · intro items listPods
    exact ⟨rfl, rfl⟩

/-- Witness for C6 (amended): a plain failure of the node listing
yields exactly one error and zero records. -/
theorem routine_source_failures_witness :
    (⟨false, "timeout"⟩ : ApiError).notFound = false ∧
    nodesRoutine (Except.error ⟨false, "timeout"⟩) = ([], ["timeout"]) :=
  ⟨rfl, (routine_source_failures ⟨false, "timeout"⟩ rfl).2.1⟩

/-- C7: a node is unhealthy exactly when some condition has type Ready
and a status other than True; the node routine emits exactly the records
of unhealthy nodes; a Ready/True node and a node without conditions are
healthy (excluded), a Ready/False node is unhealthy (included). -/
theorem node_health_predicate :
    (∀ node : Node, isHealthyNode node = false ↔
      ∃ c ∈ node.conditions, c.type = NodeReady ∧ c.status ≠ ConditionTrue) ∧
    (∀ (items : List Node) (n : Node), n ∈ items → isHealthyNode n = false →
      nodeRecord n ∈ (nodesRoutine (Except.ok items)).1) ∧
    (∀ (items : List Node) (r : Record), r ∈ (nodesRoutine (Except.ok items)).1 →
      ∃ n ∈ items, isHealthyNode n = false ∧ r = nodeRecord n) ∧
    isHealthyNode ⟨"n1", [], [], [⟨"Ready", "True"⟩], [], "", "", "", []⟩ = true ∧
    isHealthyNode ⟨"n2", [], [], [⟨"Ready", "False"⟩], [], "", "", "", []⟩ = false ∧
    isHealthyNode ⟨"n3", [], [], [], [], "", "", "", []⟩ = true := by
  refine ⟨?_, ?_, ?_, by decide, by decide, by decide⟩
  · intro node
    rw [isHealthyNode, List.all_eq_false]
    constructor
    · rintro ⟨c, hc, hp⟩
      refine ⟨c, hc, ?_⟩
      simpa using hp
    · rintro ⟨c, hc, h1, h2⟩
      refine ⟨c, hc, ?_⟩
      simpa using ⟨h1, h2⟩
  · intro items n hn hh
    simp only [nodesRoutine]
    exact List.mem_map_of_mem _ (List.mem_filter.mpr ⟨hn, by simp [hh]⟩)
  · intro items r hr
    simp only [nodesRoutine] at hr
    rcases List.mem_map.mp hr with ⟨n, hn, hrn⟩
    rcases List.mem_filter.mp hn with ⟨hni, hnf⟩
    refine ⟨n, hni, by simpa using hnf, hrn.symm⟩

/-- Witness for C7: the Ready/False node of a two-node cluster is
included in the node routine's records. -/
theorem node_health_predicate_witness :
    nodeRecord ⟨"n2", [], [], [⟨"Ready", "False"⟩], [], "", "", "", []⟩ ∈
      (nodesRoutine (Except.ok
        [⟨"n1", [], [], [⟨"Ready", "True"⟩], [], "", "", "", []⟩,
         ⟨"n2", [], [], [⟨"Ready", "False"⟩], [], "", "", "", []⟩])).1 :=
  node_health_predicate.2.1 _ _ (by decide) (by decide)

lemma anonymizeString_spec (s : String) :
    (anonymizeString s).data = List.replicate s.utf8ByteSize 'x' ∧
    (anonymizeString s).utf8ByteSize = s.utf8ByteSize := by
  refine ⟨rfl, ?_⟩
  rw [anonymizeString, String.utf8ByteSize_mk]
  generalize s.utf8ByteSize = n
  induction n with
  | zero => simp
  | succ m ih =>
    rw [List.replicate_succ, String.utf8Len_cons, ih]
    have hx : Char.utf8Size 'x' = 1 := by decide
    omega

/-- C8: the node anonymizer keeps annotation and label values verbatim
under a trusted (product-namespaced) key, blanks every other annotation
value, replaces every other label value by a run of the placeholder
character of the value's byte length, and never alters keys. -/
theorem node_anonymizer_redaction (anonymizeURL : String → String) (node : Node) (i : Nat) :
    ((anonymizeNode anonymizeURL node).annotations[i]? =
      node.annotations[i]?.map fun kv =>
        (kv.1, if isProductNamespacedKey kv.1 then kv.2 else "")) ∧
    ((anonymizeNode anonymizeURL node).labels[i]? =
      node.labels[i]?.map fun kv =>
        (kv.1, if isProductNamespacedKey kv.1 then kv.2 else anonymizeString kv.2)) ∧
    ((anonymizeNode anonymizeURL node).annotations.map Prod.fst =
      node.annotations.map Prod.fst) ∧
    ((anonymizeNode anonymizeURL node).labels.map Prod.fst = node.labels.map Prod.fst) ∧
    ∀ s : String, (anonymizeString s).data = List.replicate s.utf8ByteSize 'x' ∧
      (anonymizeString s).utf8ByteSize = s.utf8ByteSize := by
  refine ⟨?_, ?_, ?_, ?_, fun s => anonymizeString_spec s⟩
  · simp only [anonymizeNode, List.getElem?_map]
    cases node.annotations[i]? with
    | none => rfl
    | some kv => cases hp : isProductNamespacedKey kv.1 <;> simp [hp]
  · simp only [anonymizeNode, List.getElem?_map]
    cases node.labels[i]? with
    | none => rfl
    | some kv => cases hp : isProductNamespacedKey kv.1 <;> simp [hp]
  · simp only [anonymizeNode, List.map_map]
    apply List.map_congr_left
    intro kv _
    cases hp : isProductNamespacedKey kv.1 <;> simp [hp]
  · simp only [anonymizeNode, List.map_map]
    apply List.map_congr_left
    intro kv _
    cases hp : isProductNamespacedKey kv.1 <;> simp [hp]

/-- C9: an update carrying the resourceVersion of the cached entry
leaves the cache unchanged (the old object is kept), any other update —
and any update against an empty cache — replaces the entry; only
equality of versions is ever consulted, no ordering. -/
theorem shared_cache_update (lastV version : ClusterVersion) :
    (lastV.resourceVersion = version.resourceVersion →
      setClusterVersion (some lastV) version = some lastV) ∧
    (lastV.resourceVersion ≠ version.resourceVersion →
      setClusterVersion (some lastV) version = some version) ∧
    setClusterVersion none version = some version := by
  refine ⟨?_, ?_, rfl⟩
  · intro h
    simp [setClusterVersion, h]
  · intro h
    simp [setClusterVersion, h]

/-- Witness for C9: same resourceVersion ignored (old object kept, even
though the incoming object differs), different resourceVersion
accepted. -/
theorem shared_cache_update_witness :
    (⟨"1", "id-a"⟩ : ClusterVersion).resourceVersion =
      (⟨"1", "id-b"⟩ : ClusterVersion).resourceVersion ∧
    setClusterVersion (some ⟨"1", "id-a"⟩) ⟨"1", "id-b"⟩ = some ⟨"1", "id-a"⟩ ∧
    setClusterVersion (some ⟨"1", "id-a"⟩) ⟨"2", "id-b"⟩ = some ⟨"2", "id-b"⟩ :=
  ⟨rfl, (shared_cache_update ⟨"1", "id-a"⟩ ⟨"1", "id-b"⟩).1 rfl,
    (shared_cache_update ⟨"1", "id-a"⟩ ⟨"2", "id-b"⟩).2.1 (by decide)⟩

/-- C10: the cluster-id routine never returns an error; with an empty
cache it returns zero records, otherwise exactly one record named
"config/id" whose raw content serializes to exactly the UTF-8 bytes of
the cached ClusterID string. -/
theorem cluster_id_routine (lastVersion : Option ClusterVersion) :
    (clusterIDRoutine lastVersion).2 = [] ∧
    (lastVersion = none → (clusterIDRoutine lastVersion).1 = []) ∧
    ∀ v, lastVersion = some v →
      (clusterIDRoutine lastVersion).1 =
        [{ name := "config/id", item := Marshalable.raw v.clusterID }] ∧
      rawMarshal v.clusterID = (v.clusterID.data.flatMap String.utf8EncodeChar, none) := by
  refine ⟨?_, ?_, ?_⟩
  · cases lastVersion <;> rfl
  · intro h
    subst h
    rfl
  · intro v h
    subst h
    exact ⟨rfl, rfl⟩

/-- Witness for C10: a cached version with ClusterID "abc" yields the
record config/id whose content marshals to the bytes 97, 98, 99. -/
theorem cluster_id_routine_witness :
    (clusterIDRoutine (some ⟨"5", "abc"⟩)).1 =
      [{ name := "config/id", item := Marshalable.raw "abc" }] ∧
    rawMarshal "abc" = ([97, 98, 99], none) := by
  have h := (cluster_id_routine (some ⟨"5", "abc"⟩)).2.2 ⟨"5", "abc"⟩ rfl
  refine ⟨h.1, ?_⟩
  rw [h.2]
  decide

end Insights
